import Mathlib

/-!
Verification of the zcash-mina bridge core against its specification.

The development shallowly embeds the TypeScript sources:
* `src/src/zcash-verifier.ts` and its newer revision (the `MintOutput` based
  verifier): `ZcashShieldedProof`, its `verify` / `hash` methods, and
  `ZcashProofHelper.parseTransaction` / `bytesToUInt64`;
* `src/src/light-client.ts`: `ZcashBlockHeader`, `verifyPoW`,
  `verifyTimestamp`, `LightClientState.update`, and the `init`,
  `verifyBlock`, `verifyBatch` circuit methods;
* `src/src/bridge.ts`: the `BridgeV3` state and the
  `mintWithFullVerification`, `updateLightClient`, `executeBurn`,
  `pause`/`unpause` methods.

Field elements are modelled as `Nat`.  `Poseidon.hash` is modelled by
`poseidonHash`, an injective encoding of `List Nat` into `Nat` (the standard
collision-resistance idealisation of the hash: distinct inputs give distinct
digests).  `MerkleMap` roots are modelled as `poseidonHash` encodings of
association lists, and a `MerkleMapWitness` for key `k` drawn from map `m`
is modelled as the pair `(k, rest)` where `rest` is the map without `k`:
`computeRootAndKey v` then returns the root of `rest` with `k` set to `v`,
exactly the semantics the sparse Merkle map provides under collision
resistance.
-/

namespace ZcashMina

/-- Numeric value of a boolean (used for `PublicKey.toFields`). -/
def b2d (b : Bool) : Nat := cond b 1 0

/-- Base-128 digits of a natural number, least significant first, with
explicit fuel (structural recursion keeps the function kernel-computable). -/
def natSeptAux : Nat → Nat → List Nat
  | 0, _ => []
  | fuel + 1, n => if n = 0 then [] else (n % 128) :: natSeptAux fuel (n / 128)

/-- Base-128 digits of a natural number, no trailing zeros
(`natSept 0 = []`). -/
def natSept (n : Nat) : List Nat := natSeptAux n n

/-- Value of a little-endian list of base-128 digits. -/
def ofSept : List Nat → Nat
  | [] => 0
  | d :: ds => d + 128 * ofSept ds

/-- Value of a little-endian list of base-256 digits. -/
def digitsToNat : List Nat → Nat
  | [] => 0
  | d :: ds => d + 256 * digitsToNat ds

/-- One list element, encoded as a self-delimiting base-256 digit string:
its base-128 digits (all `< 128`) followed by the separator digit 255. -/
def tok (a : Nat) : List Nat := natSept a ++ [255]

/-- Model of `Poseidon.hash`: an injective digest of a list of field
elements.  Injectivity is the collision-resistance idealisation. -/
def poseidonHash (l : List Nat) : Nat := digitsToNat (l.flatMap tok)

/-- A digit string ends in the separator digit 255. -/
def endsFF : List Nat → Prop
  | [] => True
  | [d] => d = 255
  | _ :: d :: t => endsFF (d :: t)

/-! ### Authenticated map (o1js `MerkleMap`) model

A sparse Merkle key-value map with default value 0.  The map content is an
association list; its committed root is the `poseidonHash` encoding of the
list.  A `MerkleMapWitness` for key `k` is modelled as `k` together with the
rest of the map; `computeRootAndKey v` recomputes the root that the map
would have if `k` held `v`, and returns it together with the key — the
semantics the Merkle path gives under collision resistance. -/

/-- Association list from field elements to field elements (default 0). -/
abbrev AMap := List (Nat × Nat)

/-- Look a key up; absent keys map to the sparse default 0. -/
def lookupA : AMap → Nat → Nat
  | [], _ => 0
  | (k, v) :: t, key => if k = key then v else lookupA t key

/-- Remove every binding of a key. -/
def removeA (key : Nat) : AMap → AMap
  | [] => []
  | (k, v) :: t => if k = key then removeA key t else (k, v) :: removeA key t

/-- Insert a binding in key order (before the first key that is ≥). -/
def insertA (key v : Nat) : AMap → AMap
  | [] => [(key, v)]
  | (k, w) :: t => if key ≤ k then (key, v) :: (k, w) :: t else (k, w) :: insertA key v t

/-- Set a key to a value; setting the default 0 deletes the binding. -/
def setA (key v : Nat) (m : AMap) : AMap :=
  if v = 0 then removeA key m else insertA key v (removeA key m)

/-- Committed root of a map: the injective digest of its bindings. -/
def encA (m : AMap) : Nat := poseidonHash (m.flatMap fun p => [p.1, p.2])

/-- Model of an o1js `MerkleMapWitness`: the key it opens, and the rest of
the map it was drawn from. -/
structure MapWitness where
  key : Nat
  rest : AMap
  deriving DecidableEq, Repr

/-- Model of `MerkleMapWitness.computeRootAndKey(value)`: the root the map
would have with `key ↦ value`, together with the key. -/
def computeRootAndKey (w : MapWitness) (v : Nat) : Nat × Nat :=
  (encA (setA w.key v w.rest), w.key)

/-! ### Public keys, signatures, configuration hash -/

/-- Model of an o1js `PublicKey` (a curve point: x-coordinate and parity). -/
structure PublicKey where
  x : Nat
  isOdd : Bool
  deriving DecidableEq, Repr

/-- Model of `PublicKey.toFields()`. -/
def PublicKey.toFields (pk : PublicKey) : List Nat := [pk.x, b2d pk.isOdd]

/-- Model of `Poseidon.hash(tokenAddress.toFields().concat(operatorAddress.toFields()))`,
the bridge's `configHash`. -/
def configHashOf (tokenAddress operatorAddress : PublicKey) : Nat :=
  poseidonHash (tokenAddress.toFields ++ operatorAddress.toFields)

/-- Idealised signature: records the signer and the signed message.
`Signature.verify(pk, msg)` holds exactly when both match. -/
structure Sig where
  signer : PublicKey
  message : List Nat
  deriving DecidableEq, Repr

/-- Model of `Signature.verify(publicKey, message)`. -/
def sigVerify (sig : Sig) (pk : PublicKey) (msg : List Nat) : Prop :=
  sig.signer = pk ∧ sig.message = msg

instance (sig : Sig) (pk : PublicKey) (msg : List Nat) : Decidable (sigVerify sig pk msg) := by
  unfold sigVerify; infer_instance

/-! ### Zcash shielded proof (`ZcashShieldedProof`, newer revision)

Embeds the `MintOutput`-producing revision of the verifier module (the one
`bridge.ts` consumes), where `valueBalance` is a `UInt64`. -/

/-- Model of the `Nullifier` struct. -/
structure Nullifier where
  value : Nat
  deriving DecidableEq, Repr

/-- Model of the `NoteCommitment` struct. -/
structure NoteCommitment where
  value : Nat
  deriving DecidableEq, Repr

/-- Model of the `ValueCommitment` struct (a point: x and y coordinate). -/
structure ValueCommitment where
  x : Nat
  y : Nat
  deriving DecidableEq, Repr

/-- Model of `ValueCommitment.isValid()`: the source returns `Bool(true)`
unconditionally (placeholder curve check). -/
def ValueCommitment.isValid (_ : ValueCommitment) : Bool := true

/-- Model of the `ZcashShieldedProof` struct. -/
structure ZcashShieldedProof where
  anchor : Nat
  nullifier1 : Nullifier
  nullifier2 : Nullifier
  commitment1 : NoteCommitment
  commitment2 : NoteCommitment
  valueCommitment1 : ValueCommitment
  valueCommitment2 : ValueCommitment
  valueBalance : Nat
  proofA : Nat
  proofB : Nat
  proofC : Nat
  deriving DecidableEq, Repr

/-- Model of `ZcashShieldedProof.verify()`: nullifiers distinct, value
commitments "valid" (always true in the source), `valueBalance ≥ 0` as a
`UInt64` comparison (always true), and nonzero proof elements. -/
def ZcashShieldedProof.verify (p : ZcashShieldedProof) : Bool :=
  let nullifiersUnique := p.nullifier1.value ≠ p.nullifier2.value
  let vc1Valid := p.valueCommitment1.isValid
  let vc2Valid := p.valueCommitment2.isValid
  let valueBalanceValid := decide (0 ≤ p.valueBalance)
  let proofAValid := p.proofA ≠ 0
  let proofBValid := p.proofB ≠ 0
  let proofCValid := p.proofC ≠ 0
  nullifiersUnique && vc1Valid && vc2Valid && valueBalanceValid &&
    proofAValid && proofBValid && proofCValid

/-- Model of `ZcashShieldedProof.hash()`: digest of anchor, the two
nullifiers, the two note commitments, and the value balance. -/
def ZcashShieldedProof.hash (p : ZcashShieldedProof) : Nat :=
  poseidonHash [p.anchor, p.nullifier1.value, p.nullifier2.value,
    p.commitment1.value, p.commitment2.value, p.valueBalance]

/-- Model of `ZcashShieldedProof.getMintAmount()`. -/
def ZcashShieldedProof.getMintAmount (p : ZcashShieldedProof) : Nat := p.valueBalance

/-- Model of the `MintOutput` struct: the verified data handed to the
bridge contract. -/
structure MintOutput where
  amount : Nat
  nullifier1 : Nat
  nullifier2 : Nat
  txHash : Nat
  deriving DecidableEq, Repr

/-- Model of `ZcashVerifier.verifySingle`: check the proof and that its
hash matches the public input, then emit the `MintOutput`. -/
def verifySingle (txHash : Nat) (p : ZcashShieldedProof) : Option MintOutput :=
  if p.verify && (p.hash == txHash) then
    some { amount := p.getMintAmount, nullifier1 := p.nullifier1.value,
           nullifier2 := p.nullifier2.value, txHash := txHash }
  else none

/-! ### Transaction byte parsing (`ZcashProofHelper`) -/

/-- Model of `ZcashProofHelper.padBytes`: pad to the target length with the
deterministic pattern `(i * 31) & 0xff`. -/
def padBytes (data : List Nat) (targetLength : Nat) : List Nat :=
  if targetLength ≤ data.length then data
  else data ++ (List.range' data.length (targetLength - data.length)).map fun i => (i * 31) % 256

/-- Value of a little-endian byte list (least significant byte first). -/
def leBytesToNat : List Nat → Nat
  | [] => 0
  | b :: bs => b + 256 * leBytesToNat bs

/-- Model of `ZcashProofHelper.bytesToUInt64`: read 8 bytes little-endian
(missing bytes as 0) and reduce modulo 1,000,000,000,000. -/
def bytesToUInt64 (bytes : List Nat) : Nat :=
  leBytesToNat ((List.range 8).map fun i => bytes.getD i 0) % 1000000000000

/-- Model of `ZcashProofHelper.bytesToField`: big-endian byte interpretation. -/
def bytesToField (bytes : List Nat) : Nat :=
  bytes.foldl (fun acc b => 256 * acc + b) 0

/-- Byte range `[i, j)` of a list. -/
def subarray (bytes : List Nat) (i j : Nat) : List Nat := (bytes.drop i).take (j - i)

/-- Model of `ZcashProofHelper.parseTransaction`: pad to 392 bytes, then
cut the fixed-size record fields out of the padded bytes. -/
def parseTransaction (txBytes : List Nat) : ZcashShieldedProof :=
  let padded := padBytes txBytes 392
  { anchor := bytesToField (subarray padded 8 40)
    nullifier1 := ⟨bytesToField (subarray padded 40 72)⟩
    nullifier2 := ⟨bytesToField (subarray padded 72 104)⟩
    commitment1 := ⟨bytesToField (subarray padded 104 136)⟩
    commitment2 := ⟨bytesToField (subarray padded 136 168)⟩
    valueCommitment1 := ⟨bytesToField (subarray padded 168 200), bytesToField (subarray padded 200 232)⟩
    valueCommitment2 := ⟨bytesToField (subarray padded 232 264), bytesToField (subarray padded 264 296)⟩
    valueBalance := bytesToUInt64 (subarray padded 0 8)
    proofA := bytesToField (subarray padded 296 328)
    proofB := bytesToField (subarray padded 328 360)
    proofC := bytesToField (subarray padded 360 392) }

/-! ### Light client (`light-client.ts`)

`SelfProof.verify()` is the recursive-SNARK capability, assumed sound: a
verified previous proof carries its `LightClientState` public output, which
the circuit methods below consume directly. -/

/-- Model of the `ZcashBlockHeader` struct. -/
structure ZcashBlockHeader where
  version : Nat
  prevBlockHash : Nat
  merkleRoot : Nat
  timestamp : Nat
  bits : Nat
  nonce : Nat
  height : Nat
  deriving DecidableEq, Repr

/-- Model of `ZcashBlockHeader.hash()`: Poseidon digest of all seven
declared fields. -/
def headerHash (h : ZcashBlockHeader) : Nat :=
  poseidonHash [h.version, h.prevBlockHash, h.merkleRoot, h.timestamp,
    h.bits, h.nonce, h.height]

/-- Model of `ZcashBlockHeader.bitsToTarget()`: the source returns the raw
`bits` value (the comment describes a mantissa/exponent decoding that is
not implemented). -/
def bitsToTarget (h : ZcashBlockHeader) : Nat := h.bits

/-- Count of zero bits among the first 20 bits of the hash's little-endian
bit decomposition (`Field.toBits` in o1js is little-endian, so these are
the 20 least significant bits). -/
def countLowZeroBits (n : Nat) : Nat :=
  ((List.range 20).filter fun i => ! n.testBit i).length

/-- Model of `ZcashBlockHeader.verifyPoW()`: at least 10 of the first 20
bits of the header hash must be zero.  `bitsToTarget` is computed by the
source and discarded; the threshold is the constant 10. -/
def verifyPoW (h : ZcashBlockHeader) : Bool :=
  decide (10 ≤ countLowZeroBits (headerHash h))

/-- Model of `ZcashBlockHeader.verifyTimestamp(prev, now)`: strictly after
the previous timestamp and at most 7200 s into the future. -/
def verifyTimestampH (h : ZcashBlockHeader) (prevTimestamp currentTime : Nat) : Bool :=
  (decide (prevTimestamp < h.timestamp)) && (decide (h.timestamp ≤ currentTime + 7200))

/-- Model of `ZcashBlockHeader.linksTo(prevBlockHash)`. -/
def linksTo (h : ZcashBlockHeader) (prevBlockHash : Nat) : Bool :=
  h.prevBlockHash == prevBlockHash

/-- Model of the `LightClientState` struct. -/
structure LightClientState where
  latestBlockHash : Nat
  height : Nat
  chainWork : Nat
  timestamp : Nat
  deriving DecidableEq, Repr

/-- Model of `LightClientState.calculateBlockWork(bits)`: the source
returns the raw `bits` value. -/
def calculateBlockWork (bits : Nat) : Nat := bits

/-- Model of `LightClientState.update(header)`: the new state takes the
header's hash, height and timestamp, and accumulates the block work. -/
def updateState (s : LightClientState) (h : ZcashBlockHeader) : LightClientState :=
  { latestBlockHash := headerHash h
    height := h.height
    chainWork := s.chainWork + calculateBlockWork h.bits
    timestamp := h.timestamp }

/-- Model of `LightClient.init(blockHash, header)`: accept any header whose
hash equals the claimed hash; height and timestamp come from the header,
accumulated chain work is reset to 0. -/
def lcInit (blockHash : Nat) (h : ZcashBlockHeader) : Option LightClientState :=
  if headerHash h = blockHash then
    some { latestBlockHash := blockHash, height := h.height, chainWork := 0,
           timestamp := h.timestamp }
  else none

/-- Model of `LightClient.verifyBlock(newBlockHash, prevProof, header, now)`:
hash matches, links to tip, height is prior + 1, proof of work, timestamp. -/
def lcVerifyBlock (newBlockHash : Nat) (prev : LightClientState)
    (newHeader : ZcashBlockHeader) (currentTime : Nat) : Option LightClientState :=
  if headerHash newHeader ≠ newBlockHash then none
  else if ¬ linksTo newHeader prev.latestBlockHash then none
  else if newHeader.height ≠ prev.height + 1 then none
  else if ¬ verifyPoW newHeader then none
  else if ¬ verifyTimestampH newHeader prev.timestamp currentTime then none
  else some (updateState prev newHeader)

/-- One iteration of the `verifyBatch` loop body: link, proof of work and
timestamp checks, then `state.update(header)`.  The loop performs no height
check. -/
def batchStep (s : LightClientState) (h : ZcashBlockHeader) (currentTime : Nat) :
    Option LightClientState :=
  if ¬ linksTo h s.latestBlockHash then none
  else if ¬ verifyPoW h then none
  else if ¬ verifyTimestampH h s.timestamp currentTime then none
  else some (updateState s h)

/-- Thread `batchStep` over the header sequence. -/
def lcBatchGo (s : LightClientState) (headers : List ZcashBlockHeader) (currentTime : Nat) :
    Option LightClientState :=
  match headers with
  | [] => some s
  | h :: t =>
    match batchStep s h currentTime with
    | none => none
    | some s' => lcBatchGo s' t currentTime

/-- Model of `LightClient.verifyBatch(finalBlockHash, prevProof, headers, now)`:
the circuit takes a `Provable.Array` of exactly 10 headers, verifies each in
sequence, and finally checks the resulting tip hash. -/
def lcVerifyBatch (finalBlockHash : Nat) (prev : LightClientState)
    (headers : List ZcashBlockHeader) (currentTime : Nat) : Option LightClientState :=
  match lcBatchGo prev headers currentTime with
  | none => none
  | some s => if s.latestBlockHash = finalBlockHash then some s else none

/-! ### Bridge state machine (`BridgeV3` in `bridge.ts`)

Each `@method` is a function from the current on-chain state and the call
arguments to `Except BridgeError BridgeState`: the first failing assertion
determines the error, and a failing call commits nothing.  ZK-proof
arguments (`ZcashProofVerification`, `LightClientProof`) are sound
capabilities; the methods consume their verified public outputs. -/

/-- Decidable equality of `Except` results (method outcome comparison). -/
instance exceptDecEq {ε α : Type} [DecidableEq ε] [DecidableEq α] :
    DecidableEq (Except ε α) := fun x y =>
  match x, y with
  | .error e, .error f =>
    if h : e = f then .isTrue (congrArg Except.error h)
    else .isFalse (by intro hc; cases hc; exact h rfl)
  | .error _, .ok _ => .isFalse (by intro hc; cases hc)
  | .ok _, .error _ => .isFalse (by intro hc; cases hc)
  | .ok a, .ok b =>
    if h : a = b then .isTrue (congrArg Except.ok h)
    else .isFalse (by intro hc; cases hc; exact h rfl)

/-- The named assertion failures of the bridge methods. -/
inductive BridgeError where
  | invalidConfig
  | bridgePaused
  | amountTooSmall
  | amountTooLarge
  | invalidNullifierWitness1
  | nullifier1Mismatch
  | invalidNullifierWitness2
  | nullifier2Mismatch
  | invalidTxWitness
  | txHashMismatch
  | mustAdvanceChain
  | invalidSignature
  | timelockUnderflow
  | timelockNotExpired
  | invalidBurnWitness
  | requestHashMismatch
  deriving DecidableEq, Repr

/-- Witness-mismatch rejections: a recomputed root or key disagreeing with
the committed expectation (spec §7 `WitnessMismatch`). -/
def BridgeError.isWitnessMismatch : BridgeError → Bool
  | .invalidNullifierWitness1 => true
  | .nullifier1Mismatch => true
  | .invalidNullifierWitness2 => true
  | .nullifier2Mismatch => true
  | .invalidTxWitness => true
  | .txHashMismatch => true
  | .invalidBurnWitness => true
  | .requestHashMismatch => true
  | _ => false

/-- Model of the `BridgeV3` on-chain state fields. -/
structure BridgeState where
  configHash : Nat
  zcashBlockHash : Nat
  zcashBlockHeight : Nat
  nullifierSetRoot : Nat
  processedTxRoot : Nat
  isPaused : Bool
  securityState : Nat
  burnRequestsRoot : Nat
  deriving DecidableEq, Repr

/-- Model of `mintWithFullVerification` (checks in source order):
config hash, pause flag, verified proof output, amount limits, the two
nullifier non-membership witnesses keyed by the verified nullifiers, the
processed-tx non-membership witness keyed by the verified tx hash; then the
nullifier root is recomputed from witness 1 with value 1 and the processed
root from the tx witness with value 1. -/
def mintWithFullVerification (s : BridgeState)
    (tokenAddress operatorAddress _recipientAddress : PublicKey)
    (mintOutput : MintOutput)
    (nullifierWitness1 nullifierWitness2 processedTxWitness : MapWitness) :
    Except BridgeError BridgeState :=
  if configHashOf tokenAddress operatorAddress ≠ s.configHash then
    .error .invalidConfig
  else if s.isPaused then .error .bridgePaused
  else if mintOutput.amount < 100000 then .error .amountTooSmall
  else if 1000000000000 < mintOutput.amount then .error .amountTooLarge
  else
    let r1 := computeRootAndKey nullifierWitness1 0
    if r1.1 ≠ s.nullifierSetRoot then .error .invalidNullifierWitness1
    else if r1.2 ≠ mintOutput.nullifier1 then .error .nullifier1Mismatch
    else
      let r2 := computeRootAndKey nullifierWitness2 0
      if r2.1 ≠ s.nullifierSetRoot then .error .invalidNullifierWitness2
      else if r2.2 ≠ mintOutput.nullifier2 then .error .nullifier2Mismatch
      else
        let rt := computeRootAndKey processedTxWitness 0
        if rt.1 ≠ s.processedTxRoot then .error .invalidTxWitness
        else if rt.2 ≠ mintOutput.txHash then .error .txHashMismatch
        else
          .ok { s with
            nullifierSetRoot := (computeRootAndKey nullifierWitness1 1).1
            processedTxRoot := (computeRootAndKey processedTxWitness 1).1 }

/-- Model of `updateLightClient(proof)`: pause check, then the verified
proof output must advance the tracked height. -/
def updateLightClientB (s : BridgeState) (newState : LightClientState) :
    Except BridgeError BridgeState :=
  if s.isPaused then .error .bridgePaused
  else if ¬ s.zcashBlockHeight < newState.height then .error .mustAdvanceChain
  else .ok { s with zcashBlockHash := newState.latestBlockHash,
                    zcashBlockHeight := newState.height }

/-- Model of `executeBurn`: config hash, pause flag, timelock (the source
uses 60,000 ms — the demo value — where its comment says 24 h), burn-request
witness holding `requestTime` at `hash(requester, amount, zcashAddress)`,
then the slot is cleared. -/
def executeBurn (s : BridgeState)
    (tokenAddress operatorAddress burnerAddress : PublicKey)
    (amount zcashAddress requestTime : Nat)
    (burnRequestsWitness : MapWitness) (currentTime : Nat) :
    Except BridgeError BridgeState :=
  if configHashOf tokenAddress operatorAddress ≠ s.configHash then
    .error .invalidConfig
  else if s.isPaused then .error .bridgePaused
  else if currentTime < requestTime then .error .timelockUnderflow
  else if currentTime - requestTime < 60000 then .error .timelockNotExpired
  else
    let r := computeRootAndKey burnRequestsWitness requestTime
    if r.1 ≠ s.burnRequestsRoot then .error .invalidBurnWitness
    else if r.2 ≠ poseidonHash (burnerAddress.toFields ++ [amount, zcashAddress]) then
      .error .requestHashMismatch
    else
      .ok { s with burnRequestsRoot := (computeRootAndKey burnRequestsWitness 0).1 }

/-- Model of `pause`: config hash, operator signature over `[1]`, set flag. -/
def pauseB (s : BridgeState) (tokenAddress operatorAddress : PublicKey)
    (operatorSignature : Sig) : Except BridgeError BridgeState :=
  if configHashOf tokenAddress operatorAddress ≠ s.configHash then
    .error .invalidConfig
  else if ¬ sigVerify operatorSignature operatorAddress [1] then .error .invalidSignature
  else .ok { s with isPaused := true }

/-- Model of `unpause`: config hash, operator signature over `[0]`, clear flag. -/
def unpauseB (s : BridgeState) (tokenAddress operatorAddress : PublicKey)
    (operatorSignature : Sig) : Except BridgeError BridgeState :=
  if configHashOf tokenAddress operatorAddress ≠ s.configHash then
    .error .invalidConfig
  else if ¬ sigVerify operatorSignature operatorAddress [0] then .error .invalidSignature
  else .ok { s with isPaused := false }

/-! ### Concrete fixtures used by counterexamples and witnesses -/

/-- Sample token contract address. -/
def tokenAddr : PublicKey := ⟨1, false⟩

/-- Sample operator address. -/
def operatorAddr : PublicKey := ⟨2, false⟩

/-- Sample recipient address. -/
def recipientAddr : PublicKey := ⟨3, false⟩

/-- A different operator address (wrong configuration). -/
def otherOperator : PublicKey := ⟨9, false⟩

/-- A freshly initialised bridge state (empty maps, unpaused). -/
def baseBridgeState : BridgeState :=
  { configHash := configHashOf tokenAddr operatorAddr
    zcashBlockHash := 0
    zcashBlockHeight := 0
    nullifierSetRoot := encA []
    processedTxRoot := encA []
    isPaused := false
    securityState := poseidonHash [0, 0, 0]
    burnRequestsRoot := encA [] }

/-- The same bridge state with the emergency pause flag set. -/
def pausedBridgeState : BridgeState := { baseBridgeState with isPaused := true }

/-- A valid sample shielded proof (mirrors `createMockProof`). -/
def sampleProof : ZcashShieldedProof :=
  { anchor := 0, nullifier1 := ⟨1⟩, nullifier2 := ⟨2⟩, commitment1 := ⟨3⟩,
    commitment2 := ⟨4⟩, valueCommitment1 := ⟨5, 6⟩, valueCommitment2 := ⟨7, 8⟩,
    valueBalance := 100000, proofA := 9, proofB := 10, proofC := 11 }

/-- The verified mint output of `sampleProof`. -/
def sampleOutput : MintOutput :=
  { amount := 100000, nullifier1 := 1, nullifier2 := 2, txHash := sampleProof.hash }

/-- The bridge state after the sample mint: nullifier 1 and the tx hash are
marked, nullifier 2 is not. -/
def mintedState : BridgeState :=
  { baseBridgeState with
    nullifierSetRoot := encA (setA 1 1 [])
    processedTxRoot := encA (setA sampleOutput.txHash 1 []) }

/-- `sampleProof` with a different first value commitment and a different
`proofA` element — fields the transaction hash does not cover. -/
def alteredProof : ZcashShieldedProof :=
  { sampleProof with valueCommitment1 := ⟨50, 60⟩, proofA := 90 }

/-- Sample burner address. -/
def burnerAddr : PublicKey := ⟨4, true⟩

/-- Burn-request key `hash(requester, amount, zcashAddress)` of the sample
burn request (amount 100000 to address 777). -/
def burnKey : Nat := poseidonHash (burnerAddr.toFields ++ [100000, 777])

/-- Bridge state holding the sample burn request with request time 1000. -/
def burnState : BridgeState :=
  { baseBridgeState with burnRequestsRoot := encA (setA burnKey 1000 []) }

/-- Honest witness for the sample burn request. -/
def burnWitness : MapWitness := ⟨burnKey, []⟩

/-- Header with the fields the batch fixtures use; version 16384 pins the
low bits of the digest so that the proof-of-work check passes. -/
def mkPoWHeader (ph ts hgt : Nat) : ZcashBlockHeader :=
  { version := 16384, prevBlockHash := ph, merkleRoot := 0, timestamp := ts,
    bits := 0, nonce := 0, height := hgt }

/-- Prior light-client state for the batch fixtures. -/
def lcPrior : LightClientState :=
  { latestBlockHash := 5, height := 0, chainWork := 0, timestamp := 10 }

/-- A chain of headers linking from `lcPrior`, every one carrying height 7:
`verifyBatch` accepts them because its loop never checks heights. -/
def bhSeq : Nat → ZcashBlockHeader
  | 0 => mkPoWHeader 5 11 7
  | n + 1 => mkPoWHeader (headerHash (bhSeq n)) (12 + n) 7

/-- The ten headers handed to `verifyBatch` (the circuit array size is 10). -/
def batchHeaders : List ZcashBlockHeader :=
  [bhSeq 0, bhSeq 1, bhSeq 2, bhSeq 3, bhSeq 4, bhSeq 5, bhSeq 6, bhSeq 7, bhSeq 8, bhSeq 9]

/-- A header with correct single-step height 1 on top of `lcPrior`. -/
def blockHeader1 : ZcashBlockHeader := mkPoWHeader 5 11 1

/-- Header used against the proof-of-work claim: its difficulty field is
1000 yet `verifyPoW` accepts it with far fewer than 1000 leading zeros. -/
def powHeader : ZcashBlockHeader :=
  { version := 16384, prevBlockHash := 5, merkleRoot := 0, timestamp := 11,
    bits := 1000, nonce := 0, height := 7 }

/-- A genesis candidate whose proof of work fails (version 2097151 pins
eighteen one-bits into the low 20 bits of the digest) and whose height
is 7. -/
def initHeader : ZcashBlockHeader :=
  { version := 2097151, prevBlockHash := 3, merkleRoot := 4, timestamp := 99,
    bits := 17, nonce := 6, height := 7 }

/-! ### Injectivity of the hash model -/

theorem ofSept_natSeptAux : ∀ fuel n, n ≤ fuel → ofSept (natSeptAux fuel n) = n := by
  intro fuel
  induction fuel with
  | zero =>
    intro n h
    have : n = 0 := Nat.le_zero.mp h
    subst this
    rfl
  | succ f ih =>
    intro n h
    by_cases h0 : n = 0
    · subst h0; simp [natSeptAux, ofSept]
    · have hdiv : n / 128 < n := Nat.div_lt_self (Nat.pos_of_ne_zero h0) (by norm_num)
      rw [natSeptAux, if_neg h0, ofSept, ih (n / 128) (by omega)]
      omega

theorem ofSept_natSept (n : Nat) : ofSept (natSept n) = n :=
  ofSept_natSeptAux n n le_rfl

theorem natSept_injective : Function.Injective natSept :=
  Function.LeftInverse.injective ofSept_natSept

theorem natSeptAux_digit_lt : ∀ fuel n d, d ∈ natSeptAux fuel n → d < 128 := by
  intro fuel
  induction fuel with
  | zero => intro n d h; simp [natSeptAux] at h
  | succ f ih =>
    intro n d h
    by_cases h0 : n = 0
    · subst h0; simp [natSeptAux] at h
    · rw [natSeptAux, if_neg h0] at h
      rcases List.mem_cons.mp h with rfl | h
      · omega
      · exact ih _ _ h

theorem natSept_digit_lt {a d : Nat} (h : d ∈ natSept a) : d < 128 :=
  natSeptAux_digit_lt a a d h

theorem digitsToNat_append (l1 l2 : List Nat) :
    digitsToNat (l1 ++ l2) = digitsToNat l1 + 256 ^ l1.length * digitsToNat l2 := by
  induction l1 with
  | nil => simp [digitsToNat]
  | cons d t ih => simp [digitsToNat, ih, Nat.pow_succ]; ring

/-- Digit lists produced by `tok` contain only digits `< 256`. -/
theorem tok_digits_lt {a d : Nat} (h : d ∈ tok a) : d < 256 := by
  rcases List.mem_append.mp h with h | h
  · have := natSept_digit_lt h
    omega
  · simp_all

/-- The digit part of a token never contains the separator digit. -/
theorem sep_not_mem_sept (a : Nat) : 255 ∉ natSept a := by
  intro h
  have := natSept_digit_lt h
  omega

theorem endsFF_cons_of_ne_nil {a : Nat} {l : List Nat} (h : l ≠ []) :
    endsFF (a :: l) ↔ endsFF l := by
  cases l with
  | nil => exact absurd rfl h
  | cons b t => rfl

theorem endsFF_append {l1 l2 : List Nat} (h2 : l2 ≠ []) (h : endsFF l2) :
    endsFF (l1 ++ l2) := by
  induction l1 with
  | nil => simpa
  | cons a t ih =>
    have : t ++ l2 ≠ [] := by
      intro hc
      exact h2 (List.append_eq_nil.mp hc).2
    rw [List.cons_append, endsFF_cons_of_ne_nil this]
    exact ih

theorem endsFF_concat (l : List Nat) : endsFF (l ++ [255]) := by
  have : endsFF ([255] : List Nat) := rfl
  cases l with
  | nil => simpa
  | cons a t => exact endsFF_append (by simp) this

theorem endsFF_flatMap_tok (l : List Nat) : endsFF (l.flatMap tok) := by
  induction l with
  | nil => trivial
  | cons a t ih =>
    rw [List.flatMap_cons]
    cases ht : t.flatMap tok with
    | nil => simpa [tok] using endsFF_concat (natSept a)
    | cons x xs =>
      refine endsFF_append (by simp) ?_
      rw [← ht]; exact ih

/-- A digit string that ends in the separator has a positive value. -/
theorem digitsToNat_pos {l : List Nat} (hne : l ≠ []) (h : endsFF l) :
    0 < digitsToNat l := by
  induction l with
  | nil => exact absurd rfl hne
  | cons d t ih =>
    cases t with
    | nil =>
      have : d = 255 := h
      simp [digitsToNat, this]
    | cons e u =>
      have ht : endsFF (e :: u) := h
      have := ih (by simp) ht
      simp [digitsToNat] at this ⊢
      omega

/-- Digit strings of digits `< 256` ending in the separator decode
injectively. -/
theorem digitsToNat_inj : ∀ l1 l2 : List Nat,
    (∀ d ∈ l1, d < 256) → (∀ d ∈ l2, d < 256) →
    endsFF l1 → endsFF l2 →
    digitsToNat l1 = digitsToNat l2 → l1 = l2 := by
  intro l1
  induction l1 with
  | nil =>
    intro l2 _ h4 _ he2 h
    cases l2 with
    | nil => rfl
    | cons d t =>
      have := digitsToNat_pos (l := d :: t) (by simp) he2
      simp [digitsToNat] at h this
      omega
  | cons d t ih =>
    intro l2 h4 h4' he he2 h
    cases l2 with
    | nil =>
      have := digitsToNat_pos (l := d :: t) (by simp) he
      simp [digitsToNat] at h this
      omega
    | cons e u =>
      have hd : d < 256 := h4 d (by simp)
      have hje : e < 256 := h4' e (by simp)
      simp [digitsToNat] at h
      have hde : d = e ∧ digitsToNat t = digitsToNat u := by omega
      rcases hde with ⟨rfl, hv⟩
      have ht : t = u := by
        cases t with
        | nil =>
          cases u with
          | nil => rfl
          | cons x v =>
            have hu2 : endsFF (x :: v) := he2
            have := digitsToNat_pos (l := x :: v) (by simp) hu2
            simp [digitsToNat] at hv this
            omega
        | cons y w =>
          cases u with
          | nil =>
            have ht2 : endsFF (y :: w) := he
            have := digitsToNat_pos (l := y :: w) (by simp) ht2
            simp [digitsToNat] at hv this
            omega
          | cons x v =>
            exact ih (x :: v) (fun d hd => h4 d (by simp [hd]))
              (fun d hd => h4' d (by simp [hd])) he he2 hv
      rw [ht]

/-- Splitting a separator-delimited digit string is unambiguous. -/
theorem split_tok : ∀ (e1 : List Nat) {r1 e2 r2 : List Nat},
    255 ∉ e1 → 255 ∉ e2 → e1 ++ 255 :: r1 = e2 ++ 255 :: r2 → e1 = e2 ∧ r1 = r2 := by
  intro e1
  induction e1 with
  | nil =>
    intro r1 e2 r2 _ h2 h
    cases e2 with
    | nil => simpa using h
    | cons x v =>
      simp at h
      rcases h with ⟨rfl, _⟩
      simp at h2
  | cons a t ih =>
    intro r1 e2 r2 h1 h2 h
    cases e2 with
    | nil =>
      simp at h
      rcases h with ⟨rfl, _⟩
      simp at h1
    | cons x v =>
      simp at h
      rcases h with ⟨rfl, h⟩
      have := ih (by simp at h1; exact h1.2) (by simp at h2; exact h2.2) h
      exact ⟨by rw [this.1], this.2⟩

theorem flatMap_tok_inj : ∀ l1 l2 : List Nat,
    l1.flatMap tok = l2.flatMap tok → l1 = l2 := by
  intro l1
  induction l1 with
  | nil =>
    intro l2 h
    cases l2 with
    | nil => rfl
    | cons b u =>
      rw [List.flatMap_nil, List.flatMap_cons] at h
      have : tok b ≠ [] := by simp [tok]
      exact absurd (List.append_eq_nil.mp h.symm).1 this
  | cons a t ih =>
    intro l2 h
    cases l2 with
    | nil =>
      rw [List.flatMap_cons, List.flatMap_nil] at h
      have : tok a ≠ [] := by simp [tok]
      exact absurd (List.append_eq_nil.mp h).1 this
    | cons b u =>
      rw [List.flatMap_cons, List.flatMap_cons] at h
      unfold tok at h
      rw [List.append_assoc, List.append_assoc] at h
      simp only [List.singleton_append] at h
      have := split_tok _ (sep_not_mem_sept a) (sep_not_mem_sept b) h
      rcases this with ⟨henc, hrest⟩
      rw [natSept_injective henc, ih u hrest]

/-- Collision-resistance idealisation: the Poseidon model is injective. -/
theorem poseidonHash_injective : Function.Injective poseidonHash := by
  intro l1 l2 h
  unfold poseidonHash at h
  refine flatMap_tok_inj l1 l2 ?_
  refine digitsToNat_inj _ _ ?_ ?_ ?_ ?_ h
  · intro d hd
    rcases List.mem_flatMap.mp hd with ⟨a, _, hda⟩
    exact tok_digits_lt hda
  · intro d hd
    rcases List.mem_flatMap.mp hd with ⟨a, _, hda⟩
    exact tok_digits_lt hda
  · exact endsFF_flatMap_tok l1
  · exact endsFF_flatMap_tok l2

/-! ### Authenticated-map lemmas -/

theorem lookupA_removeA_self (key : Nat) : ∀ m : AMap, lookupA (removeA key m) key = 0 := by
  intro m
  induction m with
  | nil => rfl
  | cons p t ih =>
    obtain ⟨k, v⟩ := p
    by_cases h : k = key <;> simp [removeA, h, lookupA, ih]

theorem lookupA_insertA_self (key v : Nat) : ∀ m : AMap, lookupA (insertA key v m) key = v := by
  intro m
  induction m with
  | nil => simp [insertA, lookupA]
  | cons p t ih =>
    obtain ⟨k, w⟩ := p
    by_cases h : key ≤ k
    · simp [insertA, h, lookupA]
    · have hne : k ≠ key := by omega
      simp [insertA, h, lookupA, hne, ih]

/-- The value just written is the value read back. -/
theorem lookupA_setA_self (key v : Nat) (m : AMap) : lookupA (setA key v m) key = v := by
  by_cases h : v = 0
  · simp [setA, h, lookupA_removeA_self]
  · simp [setA, h, lookupA_insertA_self]

theorem removeA_of_not_mem {key : Nat} : ∀ {m : AMap}, (∀ p ∈ m, p.1 ≠ key) →
    removeA key m = m := by
  intro m
  induction m with
  | nil => intro _; rfl
  | cons p t ih =>
    intro h
    obtain ⟨k, v⟩ := p
    have hk : k ≠ key := h (k, v) (by simp)
    simp [removeA, hk]
    exact ih fun q hq => h q (by simp [hq])

/-- Setting an absent key to the default 0 leaves the map unchanged: the
honest non-membership witness for `key` in `m` is `⟨key, m⟩`. -/
theorem setA_zero_of_not_mem {key : Nat} {m : AMap} (h : ∀ p ∈ m, p.1 ≠ key) :
    setA key 0 m = m := by
  simp [setA, removeA_of_not_mem h]

theorem flatMap_pair_inj : ∀ m1 m2 : AMap,
    (m1.flatMap fun p => [p.1, p.2]) = (m2.flatMap fun p => [p.1, p.2]) → m1 = m2 := by
  intro m1
  induction m1 with
  | nil =>
    intro m2 h
    cases m2 with
    | nil => rfl
    | cons q u => obtain ⟨a, b⟩ := q; simp at h
  | cons p t ih =>
    intro m2 h
    obtain ⟨a, b⟩ := p
    cases m2 with
    | nil => simp at h
    | cons q u =>
      obtain ⟨c, d⟩ := q
      simp at h
      obtain ⟨rfl, rfl, h⟩ := h
      rw [ih u h]

/-- Roots commit to map contents: equal roots mean equal maps. -/
theorem encA_inj {m1 m2 : AMap} (h : encA m1 = encA m2) : m1 = m2 :=
  flatMap_pair_inj m1 m2 (poseidonHash_injective h)

/-! ### Bridge helper lemmas -/

/-- A mint call with honest witnesses drawn from the committed maps, fresh
nullifiers and tx hash, matching config and in-range amount succeeds, and
commits the root recomputed from witness 1 (value 1) and the processed-tx
root recomputed from the tx witness (value 1). -/
theorem mint_ok_of_valid {s : BridgeState} {tokA opA recA : PublicKey}
    {o : MintOutput} {m1 mt : AMap}
    (hc : s.configHash = configHashOf tokA opA)
    (hp : s.isPaused = false)
    (hn : s.nullifierSetRoot = encA m1)
    (hx : s.processedTxRoot = encA mt)
    (h1 : ∀ q ∈ m1, q.1 ≠ o.nullifier1)
    (h2 : ∀ q ∈ m1, q.1 ≠ o.nullifier2)
    (h3 : ∀ q ∈ mt, q.1 ≠ o.txHash)
    (ha : 100000 ≤ o.amount) (hb : o.amount ≤ 1000000000000) :
    mintWithFullVerification s tokA opA recA o
        ⟨o.nullifier1, m1⟩ ⟨o.nullifier2, m1⟩ ⟨o.txHash, mt⟩ =
      .ok { s with nullifierSetRoot := encA (setA o.nullifier1 1 m1),
                   processedTxRoot := encA (setA o.txHash 1 mt) } := by
  have ha' : ¬ (o.amount < 100000) := by omega
  have hb' : ¬ (1000000000000 < o.amount) := by omega
  unfold mintWithFullVerification computeRootAndKey
  rw [setA_zero_of_not_mem h1, setA_zero_of_not_mem h2, setA_zero_of_not_mem h3]
  simp [hc, hp, hn, hx, ha', hb']

/-- Against a state whose nullifier root already marks `o.nullifier1` as
spent, a mint call for the same output fails at the first nullifier
witness, whatever witnesses are supplied. -/
theorem mint_second_fails {s' : BridgeState} {tokA opA recA : PublicKey}
    {o : MintOutput} {m1 : AMap}
    (hc : s'.configHash = configHashOf tokA opA)
    (hp : s'.isPaused = false)
    (hroot : s'.nullifierSetRoot = encA (setA o.nullifier1 1 m1))
    (ha : 100000 ≤ o.amount) (hb : o.amount ≤ 1000000000000)
    (w1 w2 wt : MapWitness) :
    ∃ e, mintWithFullVerification s' tokA opA recA o w1 w2 wt = .error e ∧
      e.isWitnessMismatch = true := by
  have ha' : ¬ (o.amount < 100000) := by omega
  have hb' : ¬ (1000000000000 < o.amount) := by omega
  by_cases hw : encA (setA w1.key 0 w1.rest) = s'.nullifierSetRoot
  · have hmaps : setA w1.key 0 w1.rest = setA o.nullifier1 1 m1 :=
      encA_inj (by rw [hw, hroot])
    have hkey : w1.key ≠ o.nullifier1 := by
      intro hk
      have hz := lookupA_setA_self w1.key 0 w1.rest
      rw [hmaps, hk] at hz
      have ho := lookupA_setA_self o.nullifier1 1 m1
      omega
    refine ⟨.nullifier1Mismatch, ?_, rfl⟩
    unfold mintWithFullVerification computeRootAndKey
    simp [hc, hp, ha', hb', hw, hkey]
  · refine ⟨.invalidNullifierWitness1, ?_, rfl⟩
    unfold mintWithFullVerification computeRootAndKey
    simp [hc, hp, ha', hb', hw]

/-! ### Byte-parsing helper lemmas -/

theorem leBytesToNat_lt : ∀ l : List Nat, (∀ b ∈ l, b < 256) →
    leBytesToNat l < 256 ^ l.length := by
  intro l
  induction l with
  | nil => intro _; simp [leBytesToNat]
  | cons b t ih =>
    intro h
    have hb : b < 256 := h b (by simp)
    have ht := ih fun x hx => h x (by simp [hx])
    simp [leBytesToNat, Nat.pow_succ]
    omega

theorem range_map_getD (bs : List Nat) (h : 8 ≤ bs.length) :
    (List.range 8).map (fun i => bs.getD i 0) = bs.take 8 := by
  rcases bs with _ | ⟨b0, _ | ⟨b1, _ | ⟨b2, _ | ⟨b3, _ | ⟨b4, _ | ⟨b5, _ | ⟨b6, _ | ⟨b7, rest⟩⟩⟩⟩⟩⟩⟩⟩
  all_goals first
  | rfl
  | (simp at h)

/-! ### Claim theorems -/

/-- C4: `ZcashShieldedProof.verify` returns true exactly when the
nullifiers differ, both value commitments pass the structural validity
check (which the source makes unconditionally true), the value balance is
nonnegative (a `UInt64` is always ≥ 0), and every proof element is nonzero;
consequently flipping any one of these conditions forces `verify` to return
false. -/
theorem c4_verify_iff (p : ZcashShieldedProof) :
    p.verify = true ↔
      (p.nullifier1.value ≠ p.nullifier2.value ∧
       p.valueCommitment1.isValid = true ∧ p.valueCommitment2.isValid = true ∧
       0 ≤ p.valueBalance ∧
       p.proofA ≠ 0 ∧ p.proofB ≠ 0 ∧ p.proofC ≠ 0) := by
  unfold ZcashShieldedProof.verify
  simp [ValueCommitment.isValid]
  tauto

/-- C4 witness: the sample proof satisfies all conditions and verifies. -/
theorem c4_witness : sampleProof.verify = true :=
  (c4_verify_iff sampleProof).mpr (by decide)

/-- C7 (amended): two proofs have equal hashes exactly when they agree on
the six digested fields (anchor, nullifiers, note commitments, value
balance); the hash is deterministic and ignores the value commitments and
proof elements. -/
theorem c7_hash_field_iff (p q : ZcashShieldedProof) :
    p.hash = q.hash ↔
      (p.anchor = q.anchor ∧ p.nullifier1.value = q.nullifier1.value ∧
       p.nullifier2.value = q.nullifier2.value ∧
       p.commitment1.value = q.commitment1.value ∧
       p.commitment2.value = q.commitment2.value ∧
       p.valueBalance = q.valueBalance) := by
  constructor
  · intro h
    unfold ZcashShieldedProof.hash at h
    have hl := poseidonHash_injective h
    simp at hl
    exact ⟨hl.1, hl.2.1, hl.2.2.1, hl.2.2.2.1, hl.2.2.2.2.1, hl.2.2.2.2.2⟩
  · intro ⟨h1, h2, h3, h4, h5, h6⟩
    unfold ZcashShieldedProof.hash
    rw [h1, h2, h3, h4, h5, h6]

/-- C7 counterexample: altering the first value commitment and the proofA
element leaves the transaction hash unchanged, so changing a declared field
does not always change the hash. -/
theorem c7_counterexample :
    alteredProof.hash = sampleProof.hash ∧
    alteredProof.valueCommitment1 ≠ sampleProof.valueCommitment1 ∧
    alteredProof.proofA ≠ sampleProof.proofA ∧
    alteredProof ≠ sampleProof :=
  ⟨by decide, by decide, by decide, by decide⟩

/-- C7 witness: the iff applied to the two concrete proofs that agree on
all six digested fields. -/
theorem c7_witness : alteredProof.hash = sampleProof.hash :=
  (c7_hash_field_iff alteredProof sampleProof).mpr (by decide)

/-- C9: `LightClient.init` accepts a header exactly when its hash equals
the claimed block hash — no proof-of-work, timestamp or height-0
requirement — and the accepted state takes the caller's height and
timestamp while resetting the accumulated chain work to 0. -/
theorem c9_init_accepts_any_header (blockHash : Nat) (h : ZcashBlockHeader) :
    ((lcInit blockHash h).isSome ↔ headerHash h = blockHash) ∧
    (∀ s, lcInit blockHash h = some s →
      s = { latestBlockHash := blockHash, height := h.height, chainWork := 0,
            timestamp := h.timestamp }) := by
  constructor
  · unfold lcInit
    by_cases hh : headerHash h = blockHash <;> simp [hh]
  · intro s hs
    unfold lcInit at hs
    split_ifs at hs with hh
    exact (Option.some.inj hs).symm

/-- C9 witness: `init` accepts a concrete header that fails proof of work
and has nonzero height, with chain work reset to 0. -/
theorem c9_witness :
    lcInit (headerHash initHeader) initHeader =
      some { latestBlockHash := headerHash initHeader, height := 7, chainWork := 0,
             timestamp := 99 } ∧
    verifyPoW initHeader = false ∧ initHeader.height ≠ 0 := by
  have h := c9_init_accepts_any_header (headerHash initHeader) initHeader
  refine ⟨?_, by decide, by decide⟩
  obtain ⟨s, hs⟩ := Option.isSome_iff_exists.mp (h.1.mpr rfl)
  rw [hs, h.2 s hs]
  rfl

/-- C10: the parsed `valueBalance` is the first 8 bytes read little-endian
reduced modulo 10^12, hence always `< 10^12`; amounts at or above the bound
wrap silently.  For inputs shorter than 8 bytes the deterministic padding
supplies the missing bytes. -/
theorem c10_parse_value_balance (txBytes : List Nat) :
    (parseTransaction txBytes).valueBalance < 1000000000000 ∧
    (8 ≤ txBytes.length →
      (parseTransaction txBytes).valueBalance =
        leBytesToNat (txBytes.take 8) % 1000000000000) ∧
    ((∀ b ∈ txBytes, b < 256) → leBytesToNat (txBytes.take 8) < 2 ^ 64) := by
  refine ⟨?_, ?_, ?_⟩
  · show bytesToUInt64 (subarray (padBytes txBytes 392) 0 8) < 1000000000000
    unfold bytesToUInt64
    exact Nat.mod_lt _ (by norm_num)
  · intro hlen
    have hsub : subarray (padBytes txBytes 392) 0 8 = txBytes.take 8 := by
      unfold subarray padBytes
      by_cases hp : 392 ≤ txBytes.length
      · simp [hp]
      · rw [if_neg hp]
        simp [List.take_append_of_le_length hlen]
    show bytesToUInt64 (subarray (padBytes txBytes 392) 0 8) = _
    rw [hsub]
    unfold bytesToUInt64
    rw [range_map_getD _ (by simp [List.length_take]; omega), List.take_take]
    norm_num
  · intro hb
    have h1 : ∀ b ∈ txBytes.take 8, b < 256 := fun b hbm => hb b (List.take_subset 8 txBytes hbm)
    have h2 := leBytesToNat_lt _ h1
    have h3 : (txBytes.take 8).length ≤ 8 := by simp [List.length_take]
    calc leBytesToNat (txBytes.take 8) < 256 ^ (txBytes.take 8).length := h2
      _ ≤ 256 ^ 8 := Nat.pow_le_pow_right (by norm_num) h3
      _ = 2 ^ 64 := by norm_num

/-- C10 witness: the byte string encoding exactly 10^12 parses to value
balance 0 — the amount wraps instead of being rejected. -/
theorem c10_witness :
    (parseTransaction [0, 16, 165, 212, 232, 0, 0, 0]).valueBalance < 1000000000000 ∧
    (parseTransaction [0, 16, 165, 212, 232, 0, 0, 0]).valueBalance =
      leBytesToNat ([0, 16, 165, 212, 232, 0, 0, 0].take 8) % 1000000000000 ∧
    leBytesToNat [0, 16, 165, 212, 232, 0, 0, 0] = 1000000000000 ∧
    (parseTransaction [0, 16, 165, 212, 232, 0, 0, 0]).valueBalance = 0 := by
  have h := c10_parse_value_balance [0, 16, 165, 212, 232, 0, 0, 0]
  exact ⟨h.1, h.2.1 (by decide), by decide, by decide⟩

set_option maxHeartbeats 1600000 in
/-- C1 (amended): a successful `mintWithFullVerification` commits a
nullifier root recomputed solely from witness 1 with value 1 — marking
`nullifier1` spent — and a processed-tx root recomputed from the tx witness
with value 1, in one transition; nullifier 2 is verified unspent but not
written into the committed root. -/
theorem c1_mint_commits_only_first_nullifier
    (s : BridgeState) (tokA opA recA : PublicKey) (o : MintOutput)
    (w1 w2 wt : MapWitness) (s' : BridgeState)
    (h : mintWithFullVerification s tokA opA recA o w1 w2 wt = .ok s') :
    s'.nullifierSetRoot = (computeRootAndKey w1 1).1 ∧
    lookupA (setA w1.key 1 w1.rest) o.nullifier1 = 1 ∧
    s'.processedTxRoot = (computeRootAndKey wt 1).1 ∧
    s'.burnRequestsRoot = s.burnRequestsRoot ∧
    s'.zcashBlockHash = s.zcashBlockHash := by
  unfold mintWithFullVerification at h
  simp only [computeRootAndKey] at h
  split_ifs at h with h1 h2 h3 h4 h5 h6 h7 h8 h9 h10 <;> cases h
  refine ⟨rfl, ?_, rfl, rfl, rfl⟩
  have hk : w1.key = o.nullifier1 := by omega
  rw [← hk]
  exact lookupA_setA_self w1.key 1 w1.rest

set_option maxRecDepth 8000 in
/-- C1 witness: the committed roots of the concrete sample mint. -/
theorem c1_witness :
    mintedState.nullifierSetRoot = (computeRootAndKey ⟨1, []⟩ 1).1 ∧
    lookupA (setA (1 : Nat) 1 []) sampleOutput.nullifier1 = 1 ∧
    mintedState.processedTxRoot = (computeRootAndKey ⟨sampleOutput.txHash, []⟩ 1).1 ∧
    mintedState.burnRequestsRoot = baseBridgeState.burnRequestsRoot ∧
    mintedState.zcashBlockHash = baseBridgeState.zcashBlockHash :=
  c1_mint_commits_only_first_nullifier baseBridgeState tokenAddr operatorAddr recipientAddr
    sampleOutput ⟨1, []⟩ ⟨2, []⟩ ⟨sampleOutput.txHash, []⟩ mintedState (by decide)

set_option maxRecDepth 8000 in
/-- C1 counterexample: a successful concrete mint whose committed
nullifier root is the encoding of a map that does not mark both verified
nullifiers as spent — nullifier 2 is still unspent there. -/
theorem c1_counterexample :
    mintWithFullVerification baseBridgeState tokenAddr operatorAddr recipientAddr sampleOutput
      ⟨1, []⟩ ⟨2, []⟩ ⟨sampleOutput.txHash, []⟩ = .ok mintedState ∧
    mintedState.nullifierSetRoot = encA (setA 1 1 []) ∧
    ¬ (lookupA (setA 1 1 []) sampleOutput.nullifier1 = 1 ∧
       lookupA (setA 1 1 []) sampleOutput.nullifier2 = 1) :=
  ⟨by decide, rfl, by decide⟩

/-- C2: from a state whose committed maps leave the verified nullifiers
and tx hash unspent, a mint call carrying a verified proof output with
honest witnesses succeeds, and every replay of the same output against the
resulting state fails with a witness-mismatch rejection, whatever witnesses
the second caller supplies (no root is committed by a failing call). -/
theorem c2_replay_protection
    (s : BridgeState) (tokA opA recA : PublicKey) (txId : Nat)
    (p : ZcashShieldedProof) (o : MintOutput) (m1 mt : AMap)
    (hver : verifySingle txId p = some o)
    (hc : s.configHash = configHashOf tokA opA) (hp : s.isPaused = false)
    (hn : s.nullifierSetRoot = encA m1) (hx : s.processedTxRoot = encA mt)
    (h1 : ∀ q ∈ m1, q.1 ≠ o.nullifier1) (h2 : ∀ q ∈ m1, q.1 ≠ o.nullifier2)
    (h3 : ∀ q ∈ mt, q.1 ≠ o.txHash)
    (ha : 100000 ≤ o.amount) (hb : o.amount ≤ 1000000000000) :
    ∃ s', mintWithFullVerification s tokA opA recA o
        ⟨o.nullifier1, m1⟩ ⟨o.nullifier2, m1⟩ ⟨o.txHash, mt⟩ = .ok s' ∧
      ∀ w1 w2 wt : MapWitness,
        ∃ e, mintWithFullVerification s' tokA opA recA o w1 w2 wt = .error e ∧
          e.isWitnessMismatch = true := by
  refine ⟨_, mint_ok_of_valid hc hp hn hx h1 h2 h3 ha hb, ?_⟩
  intro w1 w2 wt
  exact @mint_second_fails
    { s with nullifierSetRoot := encA (setA o.nullifier1 1 m1),
             processedTxRoot := encA (setA o.txHash 1 mt) }
    tokA opA recA o m1 hc hp rfl ha hb w1 w2 wt

set_option maxRecDepth 8000 in
/-- C2 witness: the sample mint against the fresh bridge state, replayed. -/
theorem c2_witness :
    ∃ s', mintWithFullVerification baseBridgeState tokenAddr operatorAddr recipientAddr
        sampleOutput ⟨sampleOutput.nullifier1, []⟩ ⟨sampleOutput.nullifier2, []⟩
        ⟨sampleOutput.txHash, []⟩ = .ok s' ∧
      ∀ w1 w2 wt : MapWitness,
        ∃ e, mintWithFullVerification s' tokenAddr operatorAddr recipientAddr sampleOutput
            w1 w2 wt = .error e ∧ e.isWitnessMismatch = true :=
  c2_replay_protection baseBridgeState tokenAddr operatorAddr recipientAddr sampleProof.hash
    sampleProof sampleOutput [] [] (by decide) rfl rfl rfl rfl (by simp) (by simp) (by simp)
    (by decide) (by decide)

/-- C3 (amended): `executeBurn` succeeds only when `now − requestTime` is
at least 60,000 ms — the one-minute demo timelock the source substitutes
for the documented 24 hours — and any call below that bound with matching
configuration, unpaused bridge and no underflow rejects with the timelock
error (committing nothing). -/
theorem c3_timelock_is_one_minute
    (s : BridgeState) (tokA opA bA : PublicKey) (amount zaddr reqTime : Nat)
    (w : MapWitness) (now : Nat) :
    (∀ s', executeBurn s tokA opA bA amount zaddr reqTime w now = .ok s' →
      reqTime ≤ now ∧ 60000 ≤ now - reqTime) ∧
    (s.configHash = configHashOf tokA opA → s.isPaused = false → reqTime ≤ now →
      now - reqTime < 60000 →
      executeBurn s tokA opA bA amount zaddr reqTime w now = .error .timelockNotExpired) := by
  constructor
  · intro s' h
    unfold executeBurn at h
    simp only [computeRootAndKey] at h
    split_ifs at h <;> cases h <;> exact ⟨by omega, by omega⟩
  · intro hc hp h1 h2
    have h3 : ¬ (now < reqTime) := by omega
    unfold executeBurn
    simp [hc, hp, h3, h2]

/-- C3 witness: thirty seconds after the request, the concrete burn is
rejected with the timelock error. -/
theorem c3_witness :
    executeBurn burnState tokenAddr operatorAddr burnerAddr 100000 777 1000 burnWitness 30000 =
      .error .timelockNotExpired :=
  (c3_timelock_is_one_minute burnState tokenAddr operatorAddr burnerAddr 100000 777 1000
      burnWitness 30000).2 rfl rfl (by norm_num) (by norm_num)

set_option maxRecDepth 8000 in
/-- C3 counterexample: one minute after the request — far below 24 hours —
the concrete burn succeeds, refuting the 24-hour timelock. -/
theorem c3_counterexample :
    executeBurn burnState tokenAddr operatorAddr burnerAddr 100000 777 1000 burnWitness 61000 =
      .ok { burnState with burnRequestsRoot := encA (setA burnKey 0 []) } ∧
    61000 - 1000 < 86400000 :=
  ⟨by decide, by norm_num⟩

/-- C5 (amended): `verifyBlock` enforces that the accepted height is the
prior height plus exactly 1, but the `verifyBatch` loop performs no height
check at all: each accepted header sets the state height to the header's
own height field. -/
theorem c5_verifyblock_increments_batch_does_not :
    (∀ (newHash : Nat) (prev : LightClientState) (h : ZcashBlockHeader) (now : Nat)
        (s' : LightClientState),
      lcVerifyBlock newHash prev h now = some s' → s'.height = prev.height + 1) ∧
    (∀ (prev : LightClientState) (h : ZcashBlockHeader) (now : Nat)
        (s' : LightClientState),
      batchStep prev h now = some s' → s'.height = h.height) := by
  constructor
  · intro nh prev h now s' hs
    unfold lcVerifyBlock at hs
    split_ifs at hs with h1 h2 h3 h4 h5 <;> cases hs
    simp only [updateState]
    omega
  · intro prev h now s' hs
    unfold batchStep at hs
    split_ifs at hs <;> cases hs
    rfl

set_option maxRecDepth 8000 in
/-- C5 witness: a single-step acceptance with height +1, and a batch-loop
acceptance taking the header's height. -/
theorem c5_witness :
    (updateState lcPrior blockHeader1).height = lcPrior.height + 1 ∧
    (updateState lcPrior (bhSeq 0)).height = (bhSeq 0).height :=
  ⟨c5_verifyblock_increments_batch_does_not.1 (headerHash blockHeader1) lcPrior blockHeader1
      100000 (updateState lcPrior blockHeader1) (by decide),
   c5_verifyblock_increments_batch_does_not.2 lcPrior (bhSeq 0) 100000
      (updateState lcPrior (bhSeq 0)) (by decide)⟩

set_option maxRecDepth 8000 in
/-- C5 counterexample: `verifyBatch` accepts a ten-header chain in which
every header carries height 7, so the very first accepted step jumps the
height from 0 to 7 instead of 0 to 1. -/
theorem c5_counterexample :
    lcVerifyBatch (headerHash (bhSeq 9)) lcPrior batchHeaders 100000 =
      some ⟨headerHash (bhSeq 9), 7, 0, 20⟩ ∧
    batchHeaders.length = 10 ∧
    lcPrior.height = 0 ∧
    batchStep lcPrior (bhSeq 0) 100000 = some (updateState lcPrior (bhSeq 0)) ∧
    (updateState lcPrior (bhSeq 0)).height ≠ lcPrior.height + 1 :=
  ⟨by decide, by decide, rfl, by decide, by decide⟩

/-- C6 (amended): every header accepted by `verifyBlock` or by the
`verifyBatch` loop satisfies the proof-of-work predicate, which counts the
zero bits among the first 20 bits of the header hash's little-endian
decomposition and compares the count to the constant 10 — `bitsToTarget`
is computed and discarded, so the threshold does not come from the
difficulty field. -/
theorem c6_pow_constant_threshold :
    (∀ (newHash : Nat) (prev : LightClientState) (h : ZcashBlockHeader) (now : Nat)
        (s' : LightClientState),
      lcVerifyBlock newHash prev h now = some s' ∨ batchStep prev h now = some s' →
      10 ≤ countLowZeroBits (headerHash h)) ∧
    (∀ h : ZcashBlockHeader, verifyPoW h = decide (10 ≤ countLowZeroBits (headerHash h))) := by
  constructor
  · intro nh prev h now s' hacc
    have hpow : verifyPoW h = true := by
      rcases hacc with hs | hs
      · unfold lcVerifyBlock at hs
        split_ifs at hs with h1 h2 h3 h4 h5 <;> cases hs
        simpa using h4
      · unfold batchStep at hs
        split_ifs at hs with h1 h2 h3 <;> cases hs
        simpa using h2
    exact of_decide_eq_true hpow
  · intro h
    rfl

set_option maxRecDepth 8000 in
/-- C6 witness: the predicate holds at a concrete header accepted by the
batch loop. -/
theorem c6_witness : 10 ≤ countLowZeroBits (headerHash (bhSeq 0)) :=
  c6_pow_constant_threshold.1 0 lcPrior (bhSeq 0) 100000 (updateState lcPrior (bhSeq 0))
    (Or.inr (by decide))

set_option maxRecDepth 8000 in
/-- C6 counterexample: a header whose difficulty field demands 1000 by the
source's own `bitsToTarget` reading, yet `verifyPoW` accepts it with fewer
than 1000 zero bits — the threshold is not derived from the difficulty. -/
theorem c6_counterexample :
    verifyPoW powHeader = true ∧
    countLowZeroBits (headerHash powHeader) < bitsToTarget powHeader :=
  ⟨by decide, by decide⟩

/-- C8 (amended): while paused, `updateLightClient` always rejects with
the pause error, and `mintWithFullVerification` rejects with the pause
error whenever the supplied addresses match the configuration (a config
mismatch is reported first otherwise); `unpause` with an operator
signature clears the flag, after which both calls succeed again on
otherwise-valid input. -/
theorem c8_pause_gating :
    (∀ (s : BridgeState) (out : LightClientState), s.isPaused = true →
      updateLightClientB s out = .error .bridgePaused) ∧
    (∀ (s : BridgeState) (tokA opA recA : PublicKey) (o : MintOutput)
        (w1 w2 wt : MapWitness),
      s.isPaused = true → s.configHash = configHashOf tokA opA →
      mintWithFullVerification s tokA opA recA o w1 w2 wt = .error .bridgePaused) ∧
    (∀ (s : BridgeState) (tokA opA : PublicKey) (sig : Sig),
      s.configHash = configHashOf tokA opA → sig.signer = opA → sig.message = [0] →
      unpauseB s tokA opA sig = .ok { s with isPaused := false }) ∧
    (∀ (s : BridgeState) (out : LightClientState), s.isPaused = false →
      s.zcashBlockHeight < out.height →
      updateLightClientB s out =
        .ok { s with zcashBlockHash := out.latestBlockHash,
                     zcashBlockHeight := out.height }) ∧
    (∀ (s : BridgeState) (tokA opA recA : PublicKey) (o : MintOutput) (m1 mt : AMap),
      s.isPaused = false → s.configHash = configHashOf tokA opA →
      s.nullifierSetRoot = encA m1 → s.processedTxRoot = encA mt →
      (∀ q ∈ m1, q.1 ≠ o.nullifier1) → (∀ q ∈ m1, q.1 ≠ o.nullifier2) →
      (∀ q ∈ mt, q.1 ≠ o.txHash) → 100000 ≤ o.amount → o.amount ≤ 1000000000000 →
      ∃ s', mintWithFullVerification s tokA opA recA o
          ⟨o.nullifier1, m1⟩ ⟨o.nullifier2, m1⟩ ⟨o.txHash, mt⟩ = .ok s') := by
  refine ⟨?_, ?_, ?_, ?_, ?_⟩
  · intro s out hp
    unfold updateLightClientB
    simp [hp]
  · intro s tokA opA recA o w1 w2 wt hp hc
    unfold mintWithFullVerification
    simp [hp, hc]
  · intro s tokA opA sig hc hs hm
    unfold unpauseB
    simp [hc, sigVerify, hs, hm]
  · intro s out hp hh
    unfold updateLightClientB
    simp [hp, hh]
  · intro s tokA opA recA o m1 mt hp hc hn hx h1 h2 h3 ha hb
    exact ⟨_, mint_ok_of_valid hc hp hn hx h1 h2 h3 ha hb⟩

set_option maxRecDepth 8000 in
/-- C8 witness: the paused state rejects both calls with the pause error,
unpausing restores the flag, and the unpaused state mints again. -/
theorem c8_witness :
    updateLightClientB pausedBridgeState ⟨77, 5, 0, 0⟩ = .error .bridgePaused ∧
    mintWithFullVerification pausedBridgeState tokenAddr operatorAddr recipientAddr
      sampleOutput ⟨1, []⟩ ⟨2, []⟩ ⟨sampleOutput.txHash, []⟩ = .error .bridgePaused ∧
    unpauseB pausedBridgeState tokenAddr operatorAddr ⟨operatorAddr, [0]⟩ =
      .ok { pausedBridgeState with isPaused := false } ∧
    (∃ s', mintWithFullVerification { pausedBridgeState with isPaused := false } tokenAddr
        operatorAddr recipientAddr sampleOutput ⟨sampleOutput.nullifier1, []⟩
        ⟨sampleOutput.nullifier2, []⟩ ⟨sampleOutput.txHash, []⟩ = .ok s') :=
  ⟨c8_pause_gating.1 pausedBridgeState ⟨77, 5, 0, 0⟩ rfl,
   c8_pause_gating.2.1 pausedBridgeState tokenAddr operatorAddr recipientAddr sampleOutput
     ⟨1, []⟩ ⟨2, []⟩ ⟨sampleOutput.txHash, []⟩ rfl rfl,
   c8_pause_gating.2.2.1 pausedBridgeState tokenAddr operatorAddr ⟨operatorAddr, [0]⟩ rfl rfl rfl,
   c8_pause_gating.2.2.2.2 { pausedBridgeState with isPaused := false } tokenAddr operatorAddr
     recipientAddr sampleOutput [] [] rfl rfl rfl rfl (by simp) (by simp) (by simp)
     (by decide) (by decide)⟩

set_option maxRecDepth 8000 in
/-- C8 counterexample: a paused bridge with mismatched addresses rejects
the mint with the configuration error, not the pause error — the pause
rejection is not unconditional over all other inputs. -/
theorem c8_counterexample :
    pausedBridgeState.isPaused = true ∧
    mintWithFullVerification pausedBridgeState tokenAddr otherOperator recipientAddr
      sampleOutput ⟨1, []⟩ ⟨2, []⟩ ⟨sampleOutput.txHash, []⟩ = .error .invalidConfig ∧
    BridgeError.invalidConfig ≠ BridgeError.bridgePaused :=
  ⟨rfl, by decide, by decide⟩

end ZcashMina
